import Mathlib

/-!
# Verification of the openclaw tool-result-summary pipeline

Shallow embedding of the summarization-caching-storage-retrieval pipeline of
`src/agents/pi-extensions/tool-result-summary` (and the tool filter of
`src/agents/pi-extensions/tool-result-vector/tools.ts`).

Modelling conventions:
* JavaScript numbers are modelled as `Int` (timestamps, character budgets) or
  `Rat` (scores and raw user-supplied configuration numbers, before
  `Math.floor`); `Number.isFinite`-guarded optional overrides are `Option Rat`,
  with `none` covering "absent, not a number, or not finite".
* Strings are Lean `String`s; `.slice(0, n)` on a string is `strSlice`
  (character-based prefix), `.trim()` is `jsTrim`, `.toLowerCase()` is
  `jsToLower`; `.slice(0, n)` on an array is `List.take`.
* The md5 digests in `hashContent` / `generateCacheKey`
  (`summarizer.ts:73-88`) are modelled as the identity keying on the hashed
  text: every claim in scope depends only on the key being a deterministic
  function of `(toolName, input, contentHash)`, which the model preserves.
* Tool inputs (`Record<string, unknown>`) are association lists of a small
  JSON value type; `JSON.stringify(obj, null, 2)` is modelled by a compact
  deterministic rendering (claims depend only on determinism of the result).
* Asynchronous LLM calls are modelled by passing the backend's behaviour as a
  function from the prompt to an outcome (`success` of the completion string,
  or `failure` for a throw/timeout); the global summary cache is threaded
  explicitly as state.
-/

namespace OpenClaw

/-! ## Content blocks (`TextContent | ImageContent` of pi-ai) -/

/-- A tool-result content block: a text block or an image block. -/
inductive ContentBlock where
  | text (text : String)
  | image
deriving DecidableEq, Repr

/-- Whether a block is a text block (`block.type === "text"`). -/
def ContentBlock.isTextBlock : ContentBlock → Bool
  | .text _ => true
  | .image => false

/-- The `text` field of a block (`""` for image blocks, which are filtered
out before this is consulted). -/
def ContentBlock.textOf : ContentBlock → String
  | .text t => t
  | .image => ""

/-- `extractTextContent` (summarizer.ts:429-434): keep the text blocks, take
their text and join with newlines. -/
def extractTextContent (content : List ContentBlock) : String :=
  String.intercalate "\n" ((content.filter ContentBlock.isTextBlock).map ContentBlock.textOf)

/-! ## Tool inputs as JSON association lists -/

/-- A (flat) JSON value appearing in a tool input record. -/
inductive JsonValue where
  | str (s : String)
  | num (n : Int)
  | bool (b : Bool)
  | null
deriving DecidableEq, Repr

/-- A tool input: `Record<string, unknown>` as an insertion-ordered
association list. -/
abbrev ToolInput := List (String × JsonValue)

/-- Rendering of one JSON value (model of `JSON.stringify` on leaves). -/
def renderJsonValue : JsonValue → String
  | .str s => "\x22" ++ s ++ "\x22"
  | .num n => toString n
  | .bool b => if b then "true" else "false"
  | .null => "null"

/-- Deterministic rendering of a tool input record (model of
`JSON.stringify(obj, null, 2)`; the exact whitespace of the pretty-printer is
irrelevant to every claim, only determinism is used). -/
def stringifyInput (input : ToolInput) : String :=
  "\x7b" ++
    String.intercalate ", "
      (input.map (fun p => "\x22" ++ p.1 ++ "\x22: " ++ renderJsonValue p.2)) ++
    "\x7d"

/-- JavaScript whitespace, as relevant to `.trim()` on the strings in scope. -/
def isJsSpace (c : Char) : Bool :=
  c == ' ' || c == '\t' || c == '\n' || c == '\r'

/-- Model of JavaScript `String.prototype.trim()`: strip whitespace from both
ends. -/
def jsTrim (s : String) : String :=
  ⟨((s.data.dropWhile isJsSpace).reverse.dropWhile isJsSpace).reverse⟩

/-- Model of JavaScript `String.prototype.toLowerCase()` on tool names and
patterns: lowercase the ASCII letters. -/
def jsToLower (s : String) : String :=
  ⟨s.data.map (fun c => if 'A' ≤ c ∧ c ≤ 'Z' then Char.ofNat (c.toNat + 32) else c)⟩

/-- Model of JavaScript `String.prototype.slice(0, n)`: the first `n`
characters of the string. -/
def strSlice (s : String) (n : Nat) : String :=
  ⟨s.data.take n⟩

/-- `safeStringify` (summarizer.ts:439-449): stringify, then cap at
`maxLength` characters with a trailing ellipsis. -/
def safeStringify (input : ToolInput) (maxLength : Nat) : String :=
  let str := stringifyInput input
  if str.length ≤ maxLength then str else strSlice str maxLength ++ "..."

/-! ## Settings (settings.ts) -/

/-- Extension mode (`"off" | "store-only" | "retrieve-only" | "full"`). -/
inductive Mode where
  | off
  | storeOnly
  | retrieveOnly
  | full
deriving DecidableEq, BEq, Repr

/-- Summary cache configuration (types.ts `SummaryCacheConfig`). -/
structure SummaryCacheConfig where
  enabled : Bool
  maxEntries : Int
  ttlMs : Int
deriving DecidableEq, Repr

/-- Summary batch configuration (types.ts `SummaryBatchConfig`). -/
structure SummaryBatchConfig where
  enabled : Bool
  maxDelayMs : Int
  maxSize : Int
  minSize : Int
deriving DecidableEq, Repr

/-- Summary generation configuration (types.ts `SummaryConfig`); the `cache`
and `batch` sub-configurations are optional in the TypeScript type but always
present in an effective configuration (the code dereferences them with `!`),
so the model makes them mandatory. -/
structure SummaryConfig where
  maxChars : Int
  modelName : Option String
  timeoutMs : Int
  minContentForSummarization : Int
  cache : SummaryCacheConfig
  batch : SummaryBatchConfig
deriving DecidableEq, Repr

/-- Storage configuration (types.ts `StorageConfig`). -/
structure StorageConfig where
  dbPath : String
  maxResults : Int
  ttlDays : Int
  embeddingBatchSize : Int
  maxContentChars : Int
deriving DecidableEq, Repr

/-- Retrieval configuration (types.ts `RetrievalConfig`). -/
structure RetrievalConfig where
  maxResults : Int
  minScore : Rat
  injectFullContent : Bool
  maxFullContentChars : Int
  crossSessionSearch : Bool
deriving DecidableEq, Repr

/-- Tool filtering configuration (types.ts `ToolsFilterConfig`). -/
structure ToolsFilterConfig where
  «include» : Option (List String)
  exclude : Option (List String)
  minContentChars : Int
  maxContentChars : Int
deriving DecidableEq, Repr

/-- Complete effective extension configuration
(types.ts `ToolResultSummaryConfig`). -/
structure ToolResultSummaryConfig where
  enabled : Bool
  mode : Mode
  summary : SummaryConfig
  storage : StorageConfig
  retrieval : RetrievalConfig
  tools : ToolsFilterConfig
deriving DecidableEq, Repr

/-- `DEFAULT_SUMMARY_CONFIG` (settings.ts:19-34). -/
def DEFAULT_SUMMARY_CONFIG : SummaryConfig :=
  { maxChars := 200
    modelName := none
    timeoutMs := 10000
    minContentForSummarization := 500
    cache := { enabled := true, maxEntries := 1000, ttlMs := 7 * 24 * 60 * 60 * 1000 }
    batch := { enabled := true, maxDelayMs := 2000, maxSize := 10, minSize := 1 } }

/-- `DEFAULT_STORAGE_CONFIG` (settings.ts:39-45). -/
def DEFAULT_STORAGE_CONFIG : StorageConfig :=
  { dbPath := "tool-results"
    maxResults := 10000
    ttlDays := 30
    embeddingBatchSize := 100
    maxContentChars := 50000 }

/-- `DEFAULT_RETRIEVAL_CONFIG` (settings.ts:50-56). -/
def DEFAULT_RETRIEVAL_CONFIG : RetrievalConfig :=
  { maxResults := 5
    minScore := 1 / 2
    injectFullContent := false
    maxFullContentChars := 2000
    crossSessionSearch := false }

/-- `DEFAULT_TOOLS_FILTER_CONFIG` (settings.ts:61-66). -/
def DEFAULT_TOOLS_FILTER_CONFIG : ToolsFilterConfig :=
  { «include» := none
    exclude := some ["tts_*", "notify_*", "memory_*"]
    minContentChars := 200
    maxContentChars := 50000 }

/-- `DEFAULT_TOOL_RESULT_SUMMARY_CONFIG` (settings.ts:71-78). -/
def DEFAULT_TOOL_RESULT_SUMMARY_CONFIG : ToolResultSummaryConfig :=
  { enabled := false
    mode := Mode.full
    summary := DEFAULT_SUMMARY_CONFIG
    storage := DEFAULT_STORAGE_CONFIG
    retrieval := DEFAULT_RETRIEVAL_CONFIG
    tools := DEFAULT_TOOLS_FILTER_CONFIG }

/-- User override of the cache configuration: each field is absent (or not a
finite number / not a boolean) or present. -/
structure UserSummaryCacheConfig where
  enabled : Option Bool
  maxEntries : Option Rat
  ttlMs : Option Rat
deriving DecidableEq, Repr

/-- User override of the batch configuration. -/
structure UserSummaryBatchConfig where
  enabled : Option Bool
  maxDelayMs : Option Rat
  maxSize : Option Rat
  minSize : Option Rat
deriving DecidableEq, Repr

/-- User override of the summary configuration. -/
structure UserSummaryConfig where
  maxChars : Option Rat
  modelName : Option String
  timeoutMs : Option Rat
  minContentForSummarization : Option Rat
  cache : Option UserSummaryCacheConfig
  batch : Option UserSummaryBatchConfig
deriving DecidableEq, Repr

/-- User override of the storage configuration. -/
structure UserStorageConfig where
  dbPath : Option String
  maxResults : Option Rat
  ttlDays : Option Rat
  embeddingBatchSize : Option Rat
  maxContentChars : Option Rat
deriving DecidableEq, Repr

/-- User override of the retrieval configuration. -/
structure UserRetrievalConfig where
  maxResults : Option Rat
  minScore : Option Rat
  injectFullContent : Option Bool
  maxFullContentChars : Option Rat
  crossSessionSearch : Option Bool
deriving DecidableEq, Repr

/-- User override of the tools filter configuration (non-string array entries
are dropped by the merge, so the arrays are modelled as string lists). -/
structure UserToolsFilterConfig where
  «include» : Option (List String)
  exclude : Option (List String)
  minContentChars : Option Rat
  maxContentChars : Option Rat
deriving DecidableEq, Repr

/-- Raw user configuration (types.ts `ToolResultSummaryUserConfig`). -/
structure UserConfig where
  enabled : Option Bool
  mode : Option Mode
  summary : Option UserSummaryConfig
  storage : Option UserStorageConfig
  retrieval : Option UserRetrievalConfig
  tools : Option UserToolsFilterConfig
deriving DecidableEq, Repr

/-- `mergeSummaryCacheConfig` (settings.ts:159-174). -/
def mergeSummaryCacheConfig (base : SummaryCacheConfig) (o : UserSummaryCacheConfig) :
    SummaryCacheConfig :=
  let r1 := match o.enabled with
    | some b => { base with enabled := b }
    | none => base
  let r2 := match o.maxEntries with
    | some q => { r1 with maxEntries := max 10 ⌊q⌋ }
    | none => r1
  match o.ttlMs with
  | some q => { r2 with ttlMs := max 0 ⌊q⌋ }
  | none => r2

/-- `mergeSummaryBatchConfig` (settings.ts:176-194). -/
def mergeSummaryBatchConfig (base : SummaryBatchConfig) (o : UserSummaryBatchConfig) :
    SummaryBatchConfig :=
  let r1 := match o.enabled with
    | some b => { base with enabled := b }
    | none => base
  let r2 := match o.maxDelayMs with
    | some q => { r1 with maxDelayMs := max 100 ⌊q⌋ }
    | none => r1
  let r3 := match o.maxSize with
    | some q => { r2 with maxSize := max 1 (min 50 ⌊q⌋) }
    | none => r2
  match o.minSize with
  | some q => { r3 with minSize := max 1 ⌊q⌋ }
  | none => r3

/-- `mergeSummaryConfig` (settings.ts:128-157). -/
def mergeSummaryConfig (base : SummaryConfig) (o : UserSummaryConfig) : SummaryConfig :=
  let r1 := match o.maxChars with
    | some q => { base with maxChars := max 50 ⌊q⌋ }
    | none => base
  let r2 := match o.timeoutMs with
    | some q => { r1 with timeoutMs := max 1000 ⌊q⌋ }
    | none => r1
  let r3 := match o.modelName with
    | some s => if jsTrim s ≠ "" then { r2 with modelName := some (jsTrim s) } else r2
    | none => r2
  let r4 := match o.minContentForSummarization with
    | some q => { r3 with minContentForSummarization := max 0 ⌊q⌋ }
    | none => r3
  let r5 := match o.cache with
    | some c => { r4 with cache := mergeSummaryCacheConfig base.cache c }
    | none => r4
  match o.batch with
  | some b => { r5 with batch := mergeSummaryBatchConfig base.batch b }
  | none => r5

/-- `mergeStorageConfig` (settings.ts:196-217). -/
def mergeStorageConfig (base : StorageConfig) (o : UserStorageConfig) : StorageConfig :=
  let r1 := match o.dbPath with
    | some s => if jsTrim s ≠ "" then { base with dbPath := jsTrim s } else base
    | none => base
  let r2 := match o.maxResults with
    | some q => { r1 with maxResults := max 100 ⌊q⌋ }
    | none => r1
  let r3 := match o.ttlDays with
    | some q => { r2 with ttlDays := max 0 ⌊q⌋ }
    | none => r2
  let r4 := match o.embeddingBatchSize with
    | some q => { r3 with embeddingBatchSize := max 1 ⌊q⌋ }
    | none => r3
  match o.maxContentChars with
  | some q => { r4 with maxContentChars := max 1000 ⌊q⌋ }
  | none => r4

/-- `mergeRetrievalConfig` (settings.ts:219-243). -/
def mergeRetrievalConfig (base : RetrievalConfig) (o : UserRetrievalConfig) : RetrievalConfig :=
  let r1 := match o.maxResults with
    | some q => { base with maxResults := max 1 (min 20 ⌊q⌋) }
    | none => base
  let r2 := match o.minScore with
    | some q => { r1 with minScore := max 0 (min 1 q) }
    | none => r1
  let r3 := match o.injectFullContent with
    | some b => { r2 with injectFullContent := b }
    | none => r2
  let r4 := match o.maxFullContentChars with
    | some q => { r3 with maxFullContentChars := max 100 ⌊q⌋ }
    | none => r3
  match o.crossSessionSearch with
  | some b => { r4 with crossSessionSearch := b }
  | none => r4

/-- `mergeToolsFilterConfig` (settings.ts:245-263); array entries that are
not strings are dropped before the model sees them, the remaining
`p.trim()`-falsy entries are filtered here. -/
def mergeToolsFilterConfig (base : ToolsFilterConfig) (o : UserToolsFilterConfig) :
    ToolsFilterConfig :=
  let r1 := match o.«include» with
    | some ps => { base with «include» := some (ps.filter (fun p => jsTrim p ≠ "")) }
    | none => base
  let r2 := match o.exclude with
    | some ps => { r1 with exclude := some (ps.filter (fun p => jsTrim p ≠ "")) }
    | none => r1
  let r3 := match o.minContentChars with
    | some q => { r2 with minContentChars := max 0 ⌊q⌋ }
    | none => r2
  match o.maxContentChars with
  | some q => { r3 with maxContentChars := max 1000 ⌊q⌋ }
  | none => r3

/-- `computeEffectiveSettings` (settings.ts:84-126): `none` models a raw
value that is absent or not an object; a config with `enabled === false` or
`mode === "off"` yields `null`; otherwise the defaults are cloned and each
present section is merged. -/
def computeEffectiveSettings (raw : Option UserConfig) : Option ToolResultSummaryConfig :=
  match raw with
  | none => none
  | some cfg =>
    if cfg.enabled = some false ∨ cfg.mode = some Mode.off then none
    else
      let r0 := DEFAULT_TOOL_RESULT_SUMMARY_CONFIG
      let r1 := match cfg.enabled with
        | some b => { r0 with enabled := b }
        | none => r0
      let r2 := match cfg.mode with
        | some m => { r1 with mode := m }
        | none => r1
      let r3 := match cfg.summary with
        | some s => { r2 with summary := mergeSummaryConfig r2.summary s }
        | none => r2
      let r4 := match cfg.storage with
        | some s => { r3 with storage := mergeStorageConfig r3.storage s }
        | none => r3
      let r5 := match cfg.retrieval with
        | some s => { r4 with retrieval := mergeRetrievalConfig r4.retrieval s }
        | none => r4
      let r6 := match cfg.tools with
        | some s => { r5 with tools := mergeToolsFilterConfig r5.tools s }
        | none => r5
      some r6

/-! ## Summarizer (summarizer.ts) -/

/-- `SummarizationResult` (summarizer.ts:15-17); the optional `cached` field
is `none` when absent. -/
inductive SummarizationResult where
  | ok (summary : String) (truncated : Bool) (cached : Option Bool)
  | err (error : String)
deriving DecidableEq, Repr

/-- `CacheEntry` (summarizer.ts:37-41). -/
structure CacheEntry where
  summary : String
  createdAt : Int
  contentHash : String
deriving DecidableEq, Repr

/-- The global `summaryCache : Map<string, CacheEntry>`, modelled as an
insertion-ordered association list (a JS `Map` iterates keys in insertion
order; `set` on an existing key keeps its position). -/
abbrev SummaryCache := List (String × CacheEntry)

/-- `hashContent` (summarizer.ts:86-88); the md5 digest is modelled as the
identity (only determinism of the hash is used by any claim). -/
def hashContent (contentText : String) : String :=
  contentText

/-- `generateCacheKey` (summarizer.ts:73-81); the final md5-and-truncate step
is modelled as the identity on the hashed text. -/
def generateCacheKey (toolName : String) (input : ToolInput) (contentHash : String) : String :=
  let inputJson := safeStringify input 500
  toolName ++ ":" ++ inputJson ++ ":" ++ contentHash

/-- `checkCache` (summarizer.ts:93-113): returns the hit (with its expiry
flag) and the cache after the lazy removal of an expired entry. -/
def checkCache (key : String) (config : SummaryCacheConfig) (now : Int)
    (cache : SummaryCache) : Option (String × Bool) × SummaryCache :=
  if ¬config.enabled then (none, cache)
  else
    match cache.find? (fun p => p.1 == key) with
    | none => (none, cache)
    | some (_, entry) =>
      if config.ttlMs > 0 ∧ now - entry.createdAt > config.ttlMs then
        (some (entry.summary, true), cache.filter (fun p => p.1 ≠ key))
      else
        (some (entry.summary, false), cache)

/-- `Map.set`: replace the value in place if the key exists, else append. -/
def cacheSet (key : String) (entry : CacheEntry) (cache : SummaryCache) : SummaryCache :=
  if cache.any (fun p => p.1 == key) then
    cache.map (fun p => if p.1 == key then (key, entry) else p)
  else
    cache ++ [(key, entry)]

/-- `storeInCache` (summarizer.ts:118-141): no-op when caching is disabled;
evicts the oldest (first-inserted) entry when full — guarded by the JS
truthiness test on the evicted key — then sets the new entry. -/
def storeInCache (key : String) (contentHash : String) (summary : String)
    (config : SummaryCacheConfig) (now : Int) (cache : SummaryCache) : SummaryCache :=
  if ¬config.enabled then cache
  else
    let cache1 :=
      if (cache.length : Int) ≥ config.maxEntries then
        match cache with
        | [] => []
        | (k, e) :: rest => if k = "" then (k, e) :: rest else rest
      else cache
    cacheSet key { summary := summary, createdAt := now, contentHash := contentHash } cache1

/-- Outcome of one `llmClient.generate` call: the completion string, or a
thrown error / timeout. -/
inductive LLMOutcome where
  | success (s : String)
  | failure
deriving DecidableEq, Repr

/-- The truncation fallback `contentText.slice(0, config.maxChars) + "..."`
(summarizer.ts:207, 234, 299, 338, 358). -/
def truncationFallback (contentText : String) (maxChars : Int) : String :=
  strSlice contentText maxChars.toNat ++ "..."

/-- `buildSummaryPrompt` (summarizer.ts:393-424). -/
def buildSummaryPrompt (toolName : String) (input : ToolInput) (isError : Bool)
    (contentText : String) (maxChars : Int) : String :=
  let inputJson := safeStringify input 500
  "Summarize the following tool execution result in 1-2 concise sentences.\n\n## Tool Information\n- Name: " ++
    toolName ++ "\n- Input: " ++ inputJson ++ "\n- Status: " ++
    (if isError then "ERROR" else "SUCCESS") ++
    "\n\n## Result (first 2000 chars)\n```\n" ++ strSlice contentText 2000 ++
    "\n```\n\n## Instructions\nProvide a brief summary (max " ++ toString maxChars ++
    " characters) that captures:\n1. What the tool did\n2. Key findings, outcomes, or errors\n\nWrite the summary directly, without any preamble or explanation.\n\nSummary:"

/-- `summarize` (summarizer.ts:280-362), direct (non-batched) path; the
batch-enabled branch hands the item to the pending queue and is modelled by
`processBatch` below, as in the source. The LLM backend is a function from
the prompt to an outcome; the global cache is threaded as state. -/
def summarize (config : SummaryConfig) (llm : String → LLMOutcome) (now : Int)
    (toolName : String) (input : ToolInput) (content : List ContentBlock) (isError : Bool)
    (cache : SummaryCache) : SummarizationResult × SummaryCache :=
  let contentText := extractTextContent content
  let contentLength : Int := contentText.length
  let contentHash := hashContent contentText
  if contentLength ≤ config.maxChars then
    (.ok contentText false none, cache)
  else if contentLength ≤ config.minContentForSummarization then
    (.ok (truncationFallback contentText config.maxChars) true none, cache)
  else
    let cacheKey := generateCacheKey toolName input contentHash
    match checkCache cacheKey config.cache now cache with
    | (some (s, false), cache1) => (.ok s true (some true), cache1)
    | (_, cache1) =>
      match llm (buildSummaryPrompt toolName input isError contentText config.maxChars) with
      | .failure => (.ok (truncationFallback contentText config.maxChars) true none, cache1)
      | .success raw =>
        if (jsTrim raw).length = 0 then
          (.ok (truncationFallback contentText config.maxChars) true none, cache1)
        else
          let finalSummary := strSlice (jsTrim raw) config.maxChars.toNat
          (.ok finalSummary true (some false),
            storeInCache cacheKey contentHash finalSummary config.cache now cache1)

/-- `PendingItem` (summarizer.ts:46-57): the enqueuer stores the original
parameters together with the extracted content text and its hash; the
resolution callback is modelled by returning the results positionally. -/
structure PendingItem where
  toolName : String
  input : ToolInput
  content : List ContentBlock
  isError : Bool
  contentText : String
  contentHash : String
deriving DecidableEq, Repr

/-- Outcome of the batch generation step (`generateBatch`, or the
`Promise.all` of individual `generate` calls): the list of completions, or a
thrown error that makes the whole `try` block fail. -/
inductive BatchOutcome where
  | success (summaries : List String)
  | failure
deriving DecidableEq, Repr

/-- First pass of `processBatch` (summarizer.ts:154-165): re-check the cache
for every pending item, resolving hits with `cached=true` and collecting the
misses, threading the cache through the lazy expiry removals. -/
def splitCached (config : SummaryConfig) (now : Int) :
    List PendingItem → SummaryCache → List SummarizationResult × List PendingItem × SummaryCache
  | [], cache => ([], [], cache)
  | item :: rest, cache =>
    let cacheKey := generateCacheKey item.toolName item.input item.contentHash
    match checkCache cacheKey config.cache now cache with
    | (some (s, false), cache1) =>
      let (rs, us, cache2) := splitCached config now rest cache1
      (.ok s true (some true) :: rs, us, cache2)
    | (_, cache1) =>
      let (rs, us, cache2) := splitCached config now rest cache1
      (rs, item :: us, cache2)

/-- Result loop of `processBatch` (summarizer.ts:199-228): pair the i-th
uncached item with `summaries[i]?.trim() || ""`; an empty completion falls
back to truncation, a non-empty one is capped at `maxChars` and cached. -/
def processSuccessItems (config : SummaryConfig) (now : Int) :
    List PendingItem → List String → SummaryCache → List SummarizationResult × SummaryCache
  | [], _, cache => ([], cache)
  | item :: rest, summaries, cache =>
    let summary := jsTrim (summaries.headD "")
    if summary = "" then
      let (rs, cache1) := processSuccessItems config now rest summaries.tail cache
      (.ok (truncationFallback item.contentText config.maxChars) true none :: rs, cache1)
    else
      let finalSummary := strSlice summary config.maxChars.toNat
      let cacheKey := generateCacheKey item.toolName item.input item.contentHash
      let cache1 := storeInCache cacheKey item.contentHash finalSummary config.cache now cache
      let (rs, cache2) := processSuccessItems config now rest summaries.tail cache1
      (.ok finalSummary true (some false) :: rs, cache2)

/-- `processBatch` (summarizer.ts:146-239): resolve cache hits first; then
one batch-generation attempt (batched or per-item, collapsed into one
`BatchOutcome`) whose failure sends every uncached item to the truncation
fallback. The returned list carries the resolutions in resolution order
(cache hits first, then the uncached items in order). -/
def processBatch (config : SummaryConfig) (outcome : BatchOutcome) (now : Int)
    (items : List PendingItem) (cache : SummaryCache) :
    List SummarizationResult × SummaryCache :=
  match items with
  | [] => ([], cache)
  | _ :: _ =>
    let (cachedResults, uncachedItems, cache1) := splitCached config now items cache
    match uncachedItems with
    | [] => (cachedResults, cache1)
    | _ :: _ =>
      match outcome with
      | .failure =>
        (cachedResults ++ uncachedItems.map (fun item =>
          .ok (truncationFallback item.contentText config.maxChars) true none), cache1)
      | .success summaries =>
        let (rs, cache2) := processSuccessItems config now uncachedItems summaries cache1
        (cachedResults ++ rs, cache2)

/-! ## Tool filter (tool-result-vector/tools.ts) -/

/-- `CompiledPattern` (tools.ts:12-15); the compiled-regex variant keeps the
normalized glob source string, whose matching semantics (`^` + literal
characters with `*` → `.*` + `$`) are given by `globMatch`. -/
inductive CompiledPattern where
  | all
  | exact (value : String)
  | regex (value : String)
deriving DecidableEq, Repr

/-- `normalizePatterns` (tools.ts:20-31): trim and lowercase every entry,
drop the falsy (empty) ones. -/
def normalizePatterns (patterns : Option (List String)) : List String :=
  match patterns with
  | none => []
  | some ps => (ps.map (fun p => jsToLower (jsTrim p))).filter (fun p => p ≠ "")

/-- `compilePattern` (tools.ts:36-48); `pattern.includes("*")` is the
character membership test on the pattern. -/
def compilePattern (pattern : String) : CompiledPattern :=
  if pattern = "*" then .all
  else if ¬pattern.data.contains '*' then .exact pattern
  else .regex pattern

/-- `compilePatterns` (tools.ts:53-55). -/
def compilePatterns (patterns : Option (List String)) : List CompiledPattern :=
  (normalizePatterns patterns).map compilePattern

/-- Semantics of the anchored regex built from a glob pattern
(tools.ts:45-47): every non-`*` character is matched literally (all regex
metacharacters are escaped before the translation), and each `*` matches any
sequence of characters. -/
def globMatch : List Char → List Char → Bool
  | [], s => s.isEmpty
  | '*' :: ps, s =>
    globMatch ps s ||
      (match s with
       | [] => false
       | _ :: s' => globMatch ('*' :: ps) s')
  | _ :: _, [] => false
  | p :: ps, c :: s => p == c && globMatch ps s
termination_by ps s => (ps.length, s.length)

/-- Whether one compiled pattern matches an (already normalized) name. -/
def patternMatches (normalized : String) : CompiledPattern → Bool
  | .all => true
  | .exact value => normalized == value
  | .regex value => globMatch value.toList normalized.toList

/-- `matchesAny` (tools.ts:60-74): normalize the name, succeed on the first
matching pattern. -/
def matchesAny (toolName : String) (patterns : List CompiledPattern) : Bool :=
  let normalized := jsToLower (jsTrim toolName)
  patterns.any (patternMatches normalized)

/-- `makeToolFilterPredicate` (tools.ts:79-99). -/
def makeToolFilterPredicate (config : ToolsFilterConfig) (toolName : String) : Bool :=
  let denyPatterns := compilePatterns config.exclude
  let allowPatterns := compilePatterns config.«include»
  let normalized := jsToLower (jsTrim toolName)
  if matchesAny normalized denyPatterns then false
  else if allowPatterns.length = 0 then true
  else matchesAny normalized allowPatterns

/-! ## Store (store.ts) -/

/-- `ToolResultEntry` (types.ts:546-573); the embedding vector, `details`
and the timestamps irrelevant to the claims in scope are carried as plain
data. -/
structure ToolResultEntry where
  id : String
  sessionId : String
  toolCallId : String
  toolName : String
  input : ToolInput
  summary : String
  originalContent : List ContentBlock
  isError : Bool
  createdAt : Int
  accessCount : Int
  lastAccessAt : Int
deriving DecidableEq, Repr

/-- `ToolResultSearchResult` (types.ts:578-582). -/
structure SearchResult where
  entry : ToolResultEntry
  score : Rat
deriving DecidableEq, Repr

/-- The options record of `ToolResultSummaryStore.search` (store.ts:154-159). -/
structure SearchOptions where
  limit : Int
  minScore : Rat
  sessionId : Option String
  crossSession : Bool
deriving DecidableEq, Repr

/-- One row returned by the backing vector search: a decoded entry together
with its `_distance`. -/
structure SearchRow where
  entry : ToolResultEntry
  distance : Rat
deriving DecidableEq, Repr

/-- The session filter of `search` (store.ts:177-179):
`!options.crossSession && options.sessionId && entry.sessionId !== options.sessionId`
skips the row (`""` is falsy in JS, hence the non-emptiness test). -/
def sessionMismatch (options : SearchOptions) (entry : ToolResultEntry) : Bool :=
  ¬options.crossSession &&
    (match options.sessionId with
     | some sid => sid ≠ "" && entry.sessionId ≠ sid
     | none => false)

/-- The pure mapping-and-filtering step of `ToolResultSummaryStore.search`
(store.ts:171-190) applied to the rows returned by the backing vector search
(which over-fetches `2 × limit` candidates): drop session mismatches, score
each row as `1 / (1 + distance)`, keep scores `≥ minScore`, truncate to
`limit` preserving row order. -/
def searchResults (options : SearchOptions) (rows : List SearchRow) : List SearchResult :=
  (rows.filterMap (fun row =>
    if sessionMismatch options row.entry then none
    else
      let score : Rat := 1 / (1 + row.distance)
      if options.minScore ≤ score then some ⟨row.entry, score⟩ else none)).take
    options.limit.toNat

/-! ## Retriever (retriever.ts) -/

/-- `formatInput` (retriever.ts:119-150): render recognized keys, else fall
back to the first three generic key/value pairs. -/
def formatInput (input : ToolInput) : String :=
  let strField := fun (key : String) =>
    match input.find? (fun p => p.1 == key) with
    | some (_, .str s) => some s
    | _ => none
  let parts :=
    (match strField "file_path" with | some s => ["file=" ++ s] | none => []) ++
    (match strField "pattern" with | some s => ["pattern=\x22" ++ s ++ "\x22"] | none => []) ++
    (match strField "command" with | some s => ["cmd=\x22" ++ strSlice s 50 ++ "\x22"] | none => []) ++
    (match strField "path" with | some s => ["path=" ++ s] | none => [])
  let parts :=
    if parts = [] then
      (input.take 3).filterMap (fun p =>
        match p.2 with
        | .str s => some (p.1 ++ "=\x22" ++ strSlice s 30 ++ "\x22")
        | .num n => some (p.1 ++ "=" ++ toString n)
        | .bool b => some (p.1 ++ "=" ++ (if b then "true" else "false"))
        | .null => none)
    else parts
  String.intercalate ", " parts

/-- The per-result lines of `formatResultsForContext` (retriever.ts:86-110):
the numbered summary line with an error tag and a rounded percentage score,
the optional truncated full-content excerpt, the optional input rendering,
and a blank separator line. -/
def formatOneResult (includeFullContent : Bool) (maxContentChars : Int)
    (i : Nat) (r : SearchResult) : List String :=
  let score := round (r.score * 100)
  let errorTag := if r.entry.isError then " [ERROR]" else ""
  let mainLine := toString (i + 1) ++ ". [" ++ r.entry.toolName ++ "] " ++
    r.entry.summary ++ errorTag ++ " (" ++ toString score ++ "% match)"
  let contentLines :=
    if includeFullContent then
      let fullContent := extractTextContent r.entry.originalContent
      if fullContent.length > 0 then
        let truncated := strSlice fullContent maxContentChars.toNat
        let ellipsis := if (fullContent.length : Int) > maxContentChars then "..." else ""
        ["   Full result:", "   " ++ truncated ++ ellipsis]
      else []
    else []
  let inputStr := formatInput r.entry.input
  let inputLines := if inputStr ≠ "" then ["   Input: " ++ inputStr] else []
  mainLine :: (contentLines ++ inputLines ++ [""])

/-- `formatResultsForContext` (retriever.ts:75-114). -/
def formatResultsForContext (results : List SearchResult) (includeFullContent : Bool)
    (maxContentChars : Int) : String :=
  let header := ["<relevant-tool-results>",
    "The following previously executed tool results may be relevant to your current task:", ""]
  let body := (results.mapIdx (formatOneResult includeFullContent maxContentChars)).flatten
  String.intercalate "\n" (header ++ body ++ ["</relevant-tool-results>"])

/-! ## Extension context handler (extension.ts) -/

/-- Message content: `.str s` models a plain string, `.blocks bs` an array
of content blocks. -/
inductive MessageContent where
  | str (s : String)
  | blocks (bs : List ContentBlock)
deriving DecidableEq, Repr

/-- A conversation message as seen by the `context` handler. `objId` stands
for JavaScript object identity (the handler compares `m === lastUserMessage`
by reference). -/
structure Message where
  objId : Nat
  role : String
  toolCallId : Option String
  content : MessageContent
deriving DecidableEq, Repr

/-- `collectExistingToolCallIds` (extension.ts:226-237), as a membership
model of the JS `Set`: the `toolCallId`s of the `toolResult` messages whose
id is truthy (non-empty). -/
def collectExistingToolCallIds (messages : List Message) : List String :=
  messages.filterMap (fun m =>
    if m.role == "toolResult" then
      match m.toolCallId with
      | some tid => if tid = "" then none else some tid
      | none => none
    else none)

/-- `getUserMessageText` (extension.ts:242-253). -/
def getUserMessageText (m : Message) : String :=
  match m.content with
  | .str s => s
  | .blocks bs =>
    String.intercalate "\n" ((bs.filter ContentBlock.isTextBlock).map ContentBlock.textOf)

/-- The replacement applied to the last user message (extension.ts:199-211):
append the context note to a string content, or to every text block of an
array content. -/
def appendContextNote (m : Message) (contextNote : String) : Message :=
  match m.content with
  | .str s => { m with content := .str (s ++ contextNote) }
  | .blocks bs =>
    { m with content := .blocks (bs.map (fun block =>
        match block with
        | .text t => .text (t ++ contextNote)
        | .image => .image)) }

/-- The per-session runtime record (runtime.ts / types.ts
`ToolResultSummaryRuntimeValue`): the fields consulted or updated by the
handlers of extension.ts (the `initialized` / `lastCleanupAt` bookkeeping is
never read by them). -/
structure RuntimeValue where
  entryCount : Int
  compactionOccurred : Bool
  config : ToolResultSummaryConfig
deriving DecidableEq, Repr

/-- The `context` event handler (extension.ts:129-220). External effects are
parameters: `servicesOk` is whether `ensureServices` succeeded, `retrieved`
is the result list of `retrieveAndFormat` (`none` when retrieval threw, in
which case the `catch` suppresses injection). Returns `none` for the
handler's `undefined` (no replacement message list). -/
def handleContext (runtime : Option RuntimeValue) (servicesOk : Bool)
    (retrieved : Option (List SearchResult)) (messages : List Message) :
    Option (List Message) :=
  match runtime with
  | none => none
  | some rt =>
    if ¬rt.config.enabled then none
    else if rt.config.mode = Mode.off ∨ rt.config.mode = Mode.storeOnly then none
    else if ¬rt.compactionOccurred then none
    else
      match messages.reverse.find? (fun m => m.role == "user") with
      | none => none
      | some lastUserMessage =>
        let prompt := getUserMessageText lastUserMessage
        if (jsTrim prompt).length < 10 then none
        else if ¬servicesOk then none
        else
          match retrieved with
          | none => none
          | some results =>
            if results.length = 0 then none
            else
              let existingToolCallIds := collectExistingToolCallIds messages
              let filteredResults := results.filter (fun r =>
                !existingToolCallIds.contains r.entry.toolCallId)
              if filteredResults.length = 0 then none
              else
                let filteredContextBlock := formatResultsForContext filteredResults
                  rt.config.retrieval.injectFullContent rt.config.retrieval.maxFullContentChars
                let contextNote := "\n\n" ++ filteredContextBlock
                some (messages.map (fun m =>
                  if m.role == "user" && m.objId == lastUserMessage.objId then
                    appendContextNote m contextNote
                  else m))

/-- Host-dispatched events that touch the per-session runtime record: a
stored tool result updates `entryCount` (extension.ts:343-345), the
`session_before_compact` handler sets the one-way latch
(extension.ts:123-127), and a context event leaves the record unchanged. -/
inductive HostEvent where
  | toolResult (newEntryCount : Int)
  | beforeCompact
  | contextEvent
deriving DecidableEq, Repr

/-- The runtime-state transition for one host event
(`updateToolResultSummaryRuntime` merges partial updates, preserving the
other fields). -/
def stepRuntime (rt : RuntimeValue) : HostEvent → RuntimeValue
  | .toolResult n => { rt with entryCount := n }
  | .beforeCompact => { rt with compactionOccurred := true }
  | .contextEvent => rt

/-! ## Basic lemmas -/

theorem strSlice_length (s : String) (n : Nat) :
    (strSlice s n).length = min n s.length := by
  rcases s with ⟨data⟩
  simp [strSlice, String.length, List.length_take]

/-- The summary string carried by a summarization result (`""` for the error
variant, which never occurs). -/
def summaryOf : SummarizationResult → String
  | .ok s _ _ => s
  | .err _ => ""

/-- Whether a summarization result is the `ok` variant. -/
def SummarizationResult.isOk : SummarizationResult → Bool
  | .ok _ _ _ => true
  | .err _ => false

theorem splitCached_fst_ok (config : SummaryConfig) (now : Int) :
    ∀ (items : List PendingItem) (cache : SummaryCache) (r : SummarizationResult),
      r ∈ (splitCached config now items cache).1 → r.isOk = true := by
  intro items
  induction items with
  | nil =>
    intro cache r hr
    simp [splitCached] at hr
  | cons item rest ih =>
    intro cache r hr
    simp only [splitCached] at hr
    rcases h1 : checkCache (generateCacheKey item.toolName item.input item.contentHash)
        config.cache now cache with ⟨copt, cache1⟩
    rw [h1] at hr
    rcases h2 : splitCached config now rest cache1 with ⟨rs, us, c2⟩
    have hrs : (splitCached config now rest cache1).1 = rs := by rw [h2]
    match copt with
    | none =>
      dsimp only at hr
      rw [h2] at hr
      dsimp only at hr
      exact ih cache1 r (by rw [hrs]; exact hr)
    | some (s, true) =>
      dsimp only at hr
      rw [h2] at hr
      dsimp only at hr
      exact ih cache1 r (by rw [hrs]; exact hr)
    | some (s, false) =>
      dsimp only at hr
      rw [h2] at hr
      dsimp only at hr
      rcases List.mem_cons.mp hr with rfl | hr
      · rfl
      · exact ih cache1 r (by rw [hrs]; exact hr)

theorem processSuccessItems_fst_ok (config : SummaryConfig) (now : Int) :
    ∀ (items : List PendingItem) (summaries : List String) (cache : SummaryCache)
      (r : SummarizationResult),
      r ∈ (processSuccessItems config now items summaries cache).1 → r.isOk = true := by
  intro items
  induction items with
  | nil =>
    intro summaries cache r hr
    simp [processSuccessItems] at hr
  | cons item rest ih =>
    intro summaries cache r hr
    simp only [processSuccessItems] at hr
    by_cases hs : jsTrim (summaries.headD "") = ""
    · rw [if_pos hs] at hr
      rcases h2 : processSuccessItems config now rest summaries.tail cache with ⟨rs, c1⟩
      rw [h2] at hr
      dsimp only at hr
      rcases List.mem_cons.mp hr with rfl | hr
      · rfl
      · exact ih summaries.tail cache r (by rw [h2]; exact hr)
    · rw [if_neg hs] at hr
      rcases h2 : processSuccessItems config now rest summaries.tail
          (storeInCache (generateCacheKey item.toolName item.input item.contentHash)
            item.contentHash
            (strSlice (jsTrim (summaries.headD "")) config.maxChars.toNat)
            config.cache now cache) with ⟨rs, c1⟩
      rw [h2] at hr
      dsimp only at hr
      rcases List.mem_cons.mp hr with rfl | hr
      · rfl
      · exact ih summaries.tail _ r (by rw [h2]; exact hr)

theorem processBatch_fst_ok (config : SummaryConfig) (outcome : BatchOutcome) (now : Int)
    (items : List PendingItem) (cache : SummaryCache) (r : SummarizationResult)
    (hr : r ∈ (processBatch config outcome now items cache).1) : r.isOk = true := by
  unfold processBatch at hr
  match items with
  | [] => simp at hr
  | item :: rest =>
    dsimp only at hr
    rcases h1 : splitCached config now (item :: rest) cache with
      ⟨cachedResults, uncachedItems, cache1⟩
    rw [h1] at hr
    have hcached : ∀ x ∈ cachedResults, SummarizationResult.isOk x = true := by
      intro x hx
      apply splitCached_fst_ok config now (item :: rest) cache
      rw [h1]
      exact hx
    match uncachedItems with
    | [] =>
      dsimp only at hr
      exact hcached r hr
    | u :: us =>
      dsimp only at hr
      match outcome with
      | .failure =>
        dsimp only at hr
        rcases List.mem_append.mp hr with h | h
        · exact hcached r h
        · obtain ⟨x, hx, rfl⟩ := List.mem_map.mp h
          rfl
      | .success summaries =>
        dsimp only at hr
        rcases h2 : processSuccessItems config now (u :: us) summaries cache1 with ⟨rs, c2⟩
        rw [h2] at hr
        dsimp only at hr
        rcases List.mem_append.mp hr with h | h
        · exact hcached r h
        · exact processSuccessItems_fst_ok config now (u :: us) summaries cache1 r
            (by rw [h2]; exact h)

theorem mergeSummaryCacheConfig_ttlMs_bound (base : SummaryCacheConfig)
    (o : UserSummaryCacheConfig) (h : 0 ≤ base.ttlMs) :
    0 ≤ (mergeSummaryCacheConfig base o).ttlMs := by
  unfold mergeSummaryCacheConfig
  dsimp only
  repeat' split
  all_goals first | exact h | exact le_max_left _ _

theorem mergeSummaryBatchConfig_maxSize_bounds (base : SummaryBatchConfig)
    (o : UserSummaryBatchConfig) (h2 : 1 ≤ base.maxSize) (h3 : base.maxSize ≤ 50) :
    1 ≤ (mergeSummaryBatchConfig base o).maxSize ∧
      (mergeSummaryBatchConfig base o).maxSize ≤ 50 := by
  unfold mergeSummaryBatchConfig
  dsimp only
  constructor <;> (repeat' split) <;>
    first
      | exact h2
      | exact h3
      | exact le_max_left _ _
      | exact max_le (by norm_num) (min_le_left _ _)

theorem mergeSummaryConfig_bounds (base : SummaryConfig) (o : UserSummaryConfig)
    (h1 : 50 ≤ base.maxChars) (h2 : 1 ≤ base.batch.maxSize) (h3 : base.batch.maxSize ≤ 50)
    (h4 : 0 ≤ base.cache.ttlMs) :
    50 ≤ (mergeSummaryConfig base o).maxChars ∧
    1 ≤ (mergeSummaryConfig base o).batch.maxSize ∧
    (mergeSummaryConfig base o).batch.maxSize ≤ 50 ∧
    0 ≤ (mergeSummaryConfig base o).cache.ttlMs := by
  unfold mergeSummaryConfig
  dsimp only
  refine ⟨?_, ?_, ?_, ?_⟩ <;> (repeat' split) <;>
    first
      | exact h1
      | exact h2
      | exact h3
      | exact h4
      | exact le_max_left _ _
      | exact (mergeSummaryBatchConfig_maxSize_bounds _ _ h2 h3).1
      | exact (mergeSummaryBatchConfig_maxSize_bounds _ _ h2 h3).2
      | exact mergeSummaryCacheConfig_ttlMs_bound _ _ h4

theorem mergeRetrievalConfig_bounds (base : RetrievalConfig) (o : UserRetrievalConfig)
    (h1 : 0 ≤ base.minScore) (h2 : base.minScore ≤ 1)
    (h3 : 1 ≤ base.maxResults) (h4 : base.maxResults ≤ 20) :
    0 ≤ (mergeRetrievalConfig base o).minScore ∧
    (mergeRetrievalConfig base o).minScore ≤ 1 ∧
    1 ≤ (mergeRetrievalConfig base o).maxResults ∧
    (mergeRetrievalConfig base o).maxResults ≤ 20 := by
  unfold mergeRetrievalConfig
  dsimp only
  refine ⟨?_, ?_, ?_, ?_⟩ <;> (repeat' split) <;>
    first
      | exact h1
      | exact h2
      | exact h3
      | exact h4
      | exact le_max_left _ _
      | exact max_le (by norm_num) (min_le_left _ _)

theorem retrieval_bounds_of (r : RetrievalConfig)
    (h : r = DEFAULT_RETRIEVAL_CONFIG ∨
      ∃ o, r = mergeRetrievalConfig DEFAULT_RETRIEVAL_CONFIG o) :
    0 ≤ r.minScore ∧ r.minScore ≤ 1 ∧ 1 ≤ r.maxResults ∧ r.maxResults ≤ 20 := by
  rcases h with rfl | ⟨o, rfl⟩
  · norm_num [DEFAULT_RETRIEVAL_CONFIG]
  · exact mergeRetrievalConfig_bounds _ _ (by norm_num [DEFAULT_RETRIEVAL_CONFIG])
      (by norm_num [DEFAULT_RETRIEVAL_CONFIG]) (by norm_num [DEFAULT_RETRIEVAL_CONFIG])
      (by norm_num [DEFAULT_RETRIEVAL_CONFIG])

theorem summary_bounds_of (c : SummaryConfig)
    (h : c = DEFAULT_SUMMARY_CONFIG ∨
      ∃ o, c = mergeSummaryConfig DEFAULT_SUMMARY_CONFIG o) :
    50 ≤ c.maxChars ∧ 1 ≤ c.batch.maxSize ∧ c.batch.maxSize ≤ 50 ∧ 0 ≤ c.cache.ttlMs := by
  rcases h with rfl | ⟨o, rfl⟩
  · norm_num [DEFAULT_SUMMARY_CONFIG]
  · exact mergeSummaryConfig_bounds _ _ (by norm_num [DEFAULT_SUMMARY_CONFIG])
      (by norm_num [DEFAULT_SUMMARY_CONFIG]) (by norm_num [DEFAULT_SUMMARY_CONFIG])
      (by norm_num [DEFAULT_SUMMARY_CONFIG])

set_option maxHeartbeats 2000000 in
/-- C10: every effective configuration computed from an accepted user
configuration satisfies the fixed bounds, whatever the override values:
`retrieval.minScore ∈ [0, 1]`, `retrieval.maxResults ∈ [1, 20]`,
`summary.maxChars ≥ 50`, `summary.batch.maxSize ∈ [1, 50]`, and
`summary.cache.ttlMs ≥ 0`. -/
theorem effective_settings_bounds (raw : Option UserConfig)
    (cfg : ToolResultSummaryConfig) (h : computeEffectiveSettings raw = some cfg) :
    0 ≤ cfg.retrieval.minScore ∧ cfg.retrieval.minScore ≤ 1 ∧
    1 ≤ cfg.retrieval.maxResults ∧ cfg.retrieval.maxResults ≤ 20 ∧
    50 ≤ cfg.summary.maxChars ∧
    1 ≤ cfg.summary.batch.maxSize ∧ cfg.summary.batch.maxSize ≤ 50 ∧
    0 ≤ cfg.summary.cache.ttlMs := by
  cases raw with
  | none => simp [computeEffectiveSettings] at h
  | some u =>
    simp only [computeEffectiveSettings] at h
    split at h
    · simp at h
    · injection h with h
      subst h
      refine ⟨?_, ?_, ?_, ?_, ?_, ?_, ?_, ?_⟩ <;> (repeat' split) <;>
        first
          | exact (retrieval_bounds_of _
              (by first | exact Or.inl rfl | exact Or.inr ⟨_, rfl⟩)).1
          | exact (retrieval_bounds_of _
              (by first | exact Or.inl rfl | exact Or.inr ⟨_, rfl⟩)).2.1
          | exact (retrieval_bounds_of _
              (by first | exact Or.inl rfl | exact Or.inr ⟨_, rfl⟩)).2.2.1
          | exact (retrieval_bounds_of _
              (by first | exact Or.inl rfl | exact Or.inr ⟨_, rfl⟩)).2.2.2
          | exact (summary_bounds_of _
              (by first | exact Or.inl rfl | exact Or.inr ⟨_, rfl⟩)).1
          | exact (summary_bounds_of _
              (by first | exact Or.inl rfl | exact Or.inr ⟨_, rfl⟩)).2.1
          | exact (summary_bounds_of _
              (by first | exact Or.inl rfl | exact Or.inr ⟨_, rfl⟩)).2.2.1
          | exact (summary_bounds_of _
              (by first | exact Or.inl rfl | exact Or.inr ⟨_, rfl⟩)).2.2.2

/-- The empty user configuration (all overrides absent). -/
def emptyUserEx : UserConfig :=
  { enabled := none, mode := none, summary := none, storage := none,
    retrieval := none, tools := none }

/-- Witness for C10: the empty user configuration is accepted and yields the
default effective configuration, which satisfies all the bounds. -/
theorem effective_settings_bounds_witness :
    computeEffectiveSettings (some emptyUserEx) =
      some DEFAULT_TOOL_RESULT_SUMMARY_CONFIG ∧
    (0 ≤ DEFAULT_TOOL_RESULT_SUMMARY_CONFIG.retrieval.minScore ∧
     DEFAULT_TOOL_RESULT_SUMMARY_CONFIG.retrieval.minScore ≤ 1 ∧
     1 ≤ DEFAULT_TOOL_RESULT_SUMMARY_CONFIG.retrieval.maxResults ∧
     DEFAULT_TOOL_RESULT_SUMMARY_CONFIG.retrieval.maxResults ≤ 20 ∧
     50 ≤ DEFAULT_TOOL_RESULT_SUMMARY_CONFIG.summary.maxChars ∧
     1 ≤ DEFAULT_TOOL_RESULT_SUMMARY_CONFIG.summary.batch.maxSize ∧
     DEFAULT_TOOL_RESULT_SUMMARY_CONFIG.summary.batch.maxSize ≤ 50 ∧
     0 ≤ DEFAULT_TOOL_RESULT_SUMMARY_CONFIG.summary.cache.ttlMs) :=
  ⟨rfl, effective_settings_bounds (some emptyUserEx) DEFAULT_TOOL_RESULT_SUMMARY_CONFIG rfl⟩

/-! ## Example values used by the witnesses -/

/-- An example stored entry. -/
def entryEx : ToolResultEntry :=
  { id := "id-1", sessionId := "sess-1", toolCallId := "tc-1", toolName := "bash",
    input := [], summary := "listed files", originalContent := [], isError := false,
    createdAt := 0, accessCount := 0, lastAccessAt := 0 }

/-- A second example entry with a distinct tool call id. -/
def entryEx2 : ToolResultEntry :=
  { entryEx with id := "id-2", toolCallId := "tc-2", summary := "ran tests" }

/-- A small summarizer configuration used by witnesses (batching disabled so
the direct path applies). -/
def summaryCfgEx : SummaryConfig :=
  { maxChars := 50
    modelName := none
    timeoutMs := 10000
    minContentForSummarization := 60
    cache := { enabled := true, maxEntries := 1000, ttlMs := 1000 }
    batch := { enabled := false, maxDelayMs := 2000, maxSize := 10, minSize := 1 } }

/-- A 70-character text content, long enough to reach the LLM path of
`summarize` under `summaryCfgEx`. -/
def longTextEx : String :=
  ⟨List.replicate 70 'x'⟩

/-- An example pending batch item for `longTextEx`. -/
def pendingEx : PendingItem :=
  { toolName := "bash", input := [], content := [.text longTextEx], isError := false,
    contentText := longTextEx, contentHash := hashContent longTextEx }

/-- An enabled full-mode runtime record whose compaction latch is still
unset. -/
def rtNoCompactEx : RuntimeValue :=
  { entryCount := 0, compactionOccurred := false,
    config := { DEFAULT_TOOL_RESULT_SUMMARY_CONFIG with enabled := true, mode := Mode.full } }

/-- An enabled full-mode runtime record after compaction. -/
def rtCompactedEx : RuntimeValue :=
  { rtNoCompactEx with compactionOccurred := true }

/-- An example user message whose prompt is long enough for retrieval. -/
def userMsgEx : Message :=
  { objId := 0, role := "user", toolCallId := none,
    content := .str "please analyze the previous tool results" }

/-- An example visible tool-result message for tool call `tc-1`. -/
def toolMsgEx : Message :=
  { objId := 1, role := "toolResult", toolCallId := some "tc-1",
    content := .str "output" }

/-- An example message list: one user message, one visible tool result. -/
def messagesEx : List Message := [userMsgEx, toolMsgEx]

/-- The context note injected in the witness scenario (one retrieved result
for `entryEx2`, which is not visible in `messagesEx`). -/
def noteEx : String :=
  "\n\n" ++ formatResultsForContext [{ entry := entryEx2, score := 1 }]
    rtCompactedEx.config.retrieval.injectFullContent
    rtCompactedEx.config.retrieval.maxFullContentChars

/-- The replacement message list produced in the witness scenario. -/
def msEx : List Message :=
  messagesEx.map (fun m =>
    if m.role == "user" && m.objId == userMsgEx.objId then
      appendContextNote m noteEx
    else m)

/-! ## Claim theorems -/

/-- Well-formedness of the summary cache relative to a character cap: every
cached summary is at most `mc` characters (the LLM path only ever caches
summaries capped at `maxChars`). -/
def cacheWF (mc : Int) (cache : SummaryCache) : Prop :=
  ∀ kv ∈ cache, ((kv.2.summary.length : Int) ≤ mc)

theorem strSlice_length_le_of_nonneg (s : String) (mc : Int) (hmc : 0 ≤ mc) :
    ((strSlice s mc.toNat).length : Int) ≤ mc := by
  rw [strSlice_length]
  have h1 := Int.toNat_of_nonneg hmc
  have h2 : min mc.toNat s.length ≤ mc.toNat := Nat.min_le_left _ _
  omega

theorem truncationFallback_length (s : String) (mc : Int) (hmc : 0 ≤ mc) :
    ((truncationFallback s mc).length : Int) ≤ mc + 3 := by
  unfold truncationFallback
  rw [String.length_append, strSlice_length]
  have h1 := Int.toNat_of_nonneg hmc
  have h2 : min mc.toNat s.length ≤ mc.toNat := Nat.min_le_left _ _
  have h3 : ("..." : String).length = 3 := rfl
  omega

theorem checkCache_snd_subset (key : String) (config : SummaryCacheConfig) (now : Int)
    (cache : SummaryCache) :
    ∀ kv ∈ (checkCache key config now cache).2, kv ∈ cache := by
  intro kv hkv
  unfold checkCache at hkv
  split at hkv
  · exact hkv
  · split at hkv
    · exact hkv
    · split at hkv
      · exact List.mem_of_mem_filter hkv
      · exact hkv

theorem checkCache_fst_bound (mc : Int) (key : String) (config : SummaryCacheConfig)
    (now : Int) (cache : SummaryCache) (hwf : cacheWF mc cache) (s : String) (b : Bool)
    (h : (checkCache key config now cache).1 = some (s, b)) : ((s.length : Int) ≤ mc) := by
  unfold checkCache at h
  split at h
  · simp at h
  · split at h
    next => simp at h
    next a entry hfind =>
      have hb := hwf _ (List.mem_of_find?_eq_some hfind)
      split at h
      · simp only [Prod.mk.injEq, Option.some.injEq] at h
        rw [← h.1]
        exact hb
      · simp only [Prod.mk.injEq, Option.some.injEq] at h
        rw [← h.1]
        exact hb

theorem cacheSet_wf (mc : Int) (key : String) (entry : CacheEntry) (base : SummaryCache)
    (hwf : cacheWF mc base) (he : (entry.summary.length : Int) ≤ mc) :
    cacheWF mc (cacheSet key entry base) := by
  intro kv hkv
  unfold cacheSet at hkv
  split at hkv
  · obtain ⟨p, hp, hpe⟩ := List.mem_map.mp hkv
    by_cases hpk : (p.1 == key) = true
    · rw [if_pos hpk] at hpe
      rw [← hpe]
      exact he
    · rw [if_neg hpk] at hpe
      rw [← hpe]
      exact hwf p hp
  · rcases List.mem_append.mp hkv with hkv | hkv
    · exact hwf kv hkv
    · rcases List.mem_singleton.mp hkv with rfl
      exact he

theorem storeInCache_wf (mc : Int) (key contentHash summary : String)
    (config : SummaryCacheConfig) (now : Int) (cache : SummaryCache)
    (hwf : cacheWF mc cache) (hs : (summary.length : Int) ≤ mc) :
    cacheWF mc (storeInCache key contentHash summary config now cache) := by
  intro kv hkv
  unfold storeInCache at hkv
  split at hkv
  · exact hwf kv hkv
  · dsimp only at hkv
    refine cacheSet_wf mc key _ _ ?_ hs kv hkv
    intro p hp
    split at hp
    · split at hp
      next => exact absurd hp (List.not_mem_nil p)
      next k e rest =>
        split at hp
        · exact hwf p hp
        · exact hwf p (List.mem_cons_of_mem _ hp)
    · exact hwf p hp

theorem find?_cacheSet_self (key : String) (entry : CacheEntry) (cache : SummaryCache)
    (habs : ∀ kv ∈ cache, kv.1 ≠ key) :
    (cacheSet key entry cache).find? (fun p => p.1 == key) = some (key, entry) := by
  unfold cacheSet
  rw [if_neg ?hany]
  case hany =>
    intro hc
    obtain ⟨p, hp, hb⟩ := List.any_eq_true.mp hc
    exact habs p hp (by simpa using hb)
  rw [List.find?_append, List.find?_eq_none.mpr (fun kv hkv => by simpa using habs kv hkv)]
  simp [List.find?]

theorem find?_storeInCache_self (key contentHash summary : String)
    (config : SummaryCacheConfig) (now : Int) (cache : SummaryCache)
    (hen : config.enabled = true)
    (habs : ∀ kv ∈ cache, kv.1 ≠ key) :
    (storeInCache key contentHash summary config now cache).find? (fun p => p.1 == key) =
      some (key, { summary := summary, createdAt := now, contentHash := contentHash }) := by
  unfold storeInCache
  rw [if_neg (by simp [hen])]
  apply find?_cacheSet_self
  intro kv hkv
  apply habs kv
  split at hkv
  · split at hkv
    next => exact absurd hkv (List.not_mem_nil kv)
    next k e rest =>
      split at hkv
      · exact hkv
      · exact List.mem_cons_of_mem _ hkv
  · exact hkv

theorem summarize_fst_length_bound (config : SummaryConfig) (llm : String → LLMOutcome)
    (now : Int) (toolName : String) (input : ToolInput) (content : List ContentBlock)
    (isError : Bool) (cache : SummaryCache)
    (hmc : 0 ≤ config.maxChars) (hwf : cacheWF config.maxChars cache) :
    ((summaryOf (summarize config llm now toolName input content isError cache).1).length :
      Int) ≤ config.maxChars + 3 := by
  unfold summarize
  dsimp only
  split
  next hle =>
    have : summaryOf (SummarizationResult.ok (extractTextContent content) false none) =
        extractTextContent content := rfl
    rw [this]
    linarith
  next =>
    split
    next =>
      exact truncationFallback_length (extractTextContent content) config.maxChars hmc
    next =>
      split
      next s cache1 heq =>
        have hb := checkCache_fst_bound config.maxChars
          (generateCacheKey toolName input (hashContent (extractTextContent content)))
          config.cache now cache hwf s false (by rw [heq])
        have : summaryOf (SummarizationResult.ok s true (some true)) = s := rfl
        rw [this]
        linarith
      next =>
        split
        next =>
          exact truncationFallback_length (extractTextContent content) config.maxChars hmc
        next =>
          rename_i raw heqllm
          split
          next =>
            exact truncationFallback_length (extractTextContent content) config.maxChars hmc
          next =>
            have hb := strSlice_length_le_of_nonneg (jsTrim raw) config.maxChars hmc
            have : summaryOf (SummarizationResult.ok
                (strSlice (jsTrim raw) config.maxChars.toNat) true (some false)) =
                strSlice (jsTrim raw) config.maxChars.toNat := rfl
            rw [this]
            linarith

theorem splitCached_fst_bound (config : SummaryConfig) (now : Int)
    (hmc : 0 ≤ config.maxChars) :
    ∀ (items : List PendingItem) (cache : SummaryCache), cacheWF config.maxChars cache →
      ∀ r ∈ (splitCached config now items cache).1,
        ((summaryOf r).length : Int) ≤ config.maxChars + 3 := by
  intro items
  induction items with
  | nil =>
    intro cache _ r hr
    simp [splitCached] at hr
  | cons item rest ih =>
    intro cache hwf r hr
    simp only [splitCached] at hr
    rcases h1 : checkCache (generateCacheKey item.toolName item.input item.contentHash)
        config.cache now cache with ⟨copt, cache1⟩
    have hwf1 : cacheWF config.maxChars cache1 := fun kv hkv =>
      hwf kv (checkCache_snd_subset _ config.cache now cache kv (by rw [h1]; exact hkv))
    rw [h1] at hr
    rcases h2 : splitCached config now rest cache1 with ⟨rs, us, c2⟩
    have hrs : (splitCached config now rest cache1).1 = rs := by rw [h2]
    match copt with
    | none =>
      dsimp only at hr
      rw [h2] at hr
      dsimp only at hr
      exact ih cache1 hwf1 r (by rw [hrs]; exact hr)
    | some (s, true) =>
      dsimp only at hr
      rw [h2] at hr
      dsimp only at hr
      exact ih cache1 hwf1 r (by rw [hrs]; exact hr)
    | some (s, false) =>
      dsimp only at hr
      rw [h2] at hr
      dsimp only at hr
      rcases List.mem_cons.mp hr with rfl | hr
      · have hb := checkCache_fst_bound config.maxChars
          (generateCacheKey item.toolName item.input item.contentHash)
          config.cache now cache hwf s false (by rw [h1])
        have hs : summaryOf (SummarizationResult.ok s true (some true)) = s := rfl
        rw [hs]
        linarith
      · exact ih cache1 hwf1 r (by rw [hrs]; exact hr)

theorem processSuccessItems_fst_bound (config : SummaryConfig) (now : Int)
    (hmc : 0 ≤ config.maxChars) :
    ∀ (items : List PendingItem) (summaries : List String) (cache : SummaryCache),
      ∀ r ∈ (processSuccessItems config now items summaries cache).1,
        ((summaryOf r).length : Int) ≤ config.maxChars + 3 := by
  intro items
  induction items with
  | nil =>
    intro summaries cache r hr
    simp [processSuccessItems] at hr
  | cons item rest ih =>
    intro summaries cache r hr
    simp only [processSuccessItems] at hr
    by_cases hs : jsTrim (summaries.headD "") = ""
    · rw [if_pos hs] at hr
      rcases h2 : processSuccessItems config now rest summaries.tail cache with ⟨rs, c1⟩
      rw [h2] at hr
      dsimp only at hr
      rcases List.mem_cons.mp hr with rfl | hr
      · exact truncationFallback_length item.contentText config.maxChars hmc
      · exact ih summaries.tail cache r (by rw [h2]; exact hr)
    · rw [if_neg hs] at hr
      rcases h2 : processSuccessItems config now rest summaries.tail
          (storeInCache (generateCacheKey item.toolName item.input item.contentHash)
            item.contentHash
            (strSlice (jsTrim (summaries.headD "")) config.maxChars.toNat)
            config.cache now cache) with ⟨rs, c1⟩
      rw [h2] at hr
      dsimp only at hr
      rcases List.mem_cons.mp hr with rfl | hr
      · have hb := strSlice_length_le_of_nonneg (jsTrim (summaries.headD ""))
          config.maxChars hmc
        have heq : summaryOf (SummarizationResult.ok
            (strSlice (jsTrim (summaries.headD "")) config.maxChars.toNat) true
            (some false)) = strSlice (jsTrim (summaries.headD "")) config.maxChars.toNat := rfl
        rw [heq]
        linarith
      · exact ih summaries.tail _ r (by rw [h2]; exact hr)

theorem processBatch_fst_bound (config : SummaryConfig) (outcome : BatchOutcome) (now : Int)
    (items : List PendingItem) (cache : SummaryCache)
    (hmc : 0 ≤ config.maxChars) (hwf : cacheWF config.maxChars cache)
    (r : SummarizationResult) (hr : r ∈ (processBatch config outcome now items cache).1) :
    ((summaryOf r).length : Int) ≤ config.maxChars + 3 := by
  unfold processBatch at hr
  match items with
  | [] => simp at hr
  | item :: rest =>
    dsimp only at hr
    rcases h1 : splitCached config now (item :: rest) cache with
      ⟨cachedResults, uncachedItems, cache1⟩
    rw [h1] at hr
    have hcached : ∀ x ∈ cachedResults, ((summaryOf x).length : Int) ≤ config.maxChars + 3 := by
      intro x hx
      apply splitCached_fst_bound config now hmc (item :: rest) cache hwf
      rw [h1]
      exact hx
    match uncachedItems with
    | [] =>
      dsimp only at hr
      exact hcached r hr
    | u :: us =>
      dsimp only at hr
      match outcome with
      | .failure =>
        dsimp only at hr
        rcases List.mem_append.mp hr with h | h
        · exact hcached r h
        · obtain ⟨x, hx, rfl⟩ := List.mem_map.mp h
          exact truncationFallback_length x.contentText config.maxChars hmc
      | .success summaries =>
        dsimp only at hr
        rcases h2 : processSuccessItems config now (u :: us) summaries cache1 with ⟨rs, c2⟩
        rw [h2] at hr
        dsimp only at hr
        rcases List.mem_append.mp hr with h | h
        · exact hcached r h
        · exact processSuccessItems_fst_bound config now hmc (u :: us) summaries cache1 r
            (by rw [h2]; exact h)

/-- C3 counterexample: with `maxChars = 50` and a 55-character text content,
`summarize` takes the truncation path and returns a 53-character summary,
violating `summary.length ≤ maxChars` as claimed. -/
theorem summary_length_exceeds_maxChars :
    ¬(((summaryOf (summarize summaryCfgEx (fun _ => .failure) 0 "bash" []
        [.text (⟨List.replicate 55 'y'⟩ : String)] false []).1).length : Int) ≤
      summaryCfgEx.maxChars) := by decide

/-- C3 (amended): the summary produced by `summarize` — and by every batch
resolution — has length at most `maxChars + 3`: the LLM and cache-hit paths
are capped at `maxChars` (given a cache whose entries are so capped, as the
summarizer maintains), while the truncation-fallback paths append a
three-character ellipsis after slicing to `maxChars`. -/
theorem summary_length_within_maxChars_plus_ellipsis (config : SummaryConfig)
    (llm : String → LLMOutcome) (now : Int) (toolName : String) (input : ToolInput)
    (content : List ContentBlock) (isError : Bool) (cache : SummaryCache)
    (outcome : BatchOutcome) (items : List PendingItem) (batchCache : SummaryCache)
    (hmc : 0 ≤ config.maxChars) (hwf : cacheWF config.maxChars cache)
    (hwfb : cacheWF config.maxChars batchCache) :
    ((summaryOf (summarize config llm now toolName input content isError cache).1).length :
      Int) ≤ config.maxChars + 3 ∧
    ∀ r ∈ (processBatch config outcome now items batchCache).1,
      ((summaryOf r).length : Int) ≤ config.maxChars + 3 :=
  ⟨summarize_fst_length_bound config llm now toolName input content isError cache hmc hwf,
    fun r hr => processBatch_fst_bound config outcome now items batchCache hmc hwfb r hr⟩

/-- Witness for the amended C3 at a concrete truncation-path input. -/
theorem summary_length_within_maxChars_plus_ellipsis_witness :
    (0 : Int) ≤ summaryCfgEx.maxChars ∧
    cacheWF summaryCfgEx.maxChars [] ∧
    ((summaryOf (summarize summaryCfgEx (fun _ => .failure) 0 "bash" []
        [.text (⟨List.replicate 55 'y'⟩ : String)] false []).1).length : Int) ≤
      summaryCfgEx.maxChars + 3 ∧
    ∀ r ∈ (processBatch summaryCfgEx .failure 0 [pendingEx] []).1,
      ((summaryOf r).length : Int) ≤ summaryCfgEx.maxChars + 3 :=
  ⟨by decide, by intro kv hkv; exact absurd hkv (List.not_mem_nil kv),
    (summary_length_within_maxChars_plus_ellipsis summaryCfgEx (fun _ => .failure) 0 "bash" []
      [.text (⟨List.replicate 55 'y'⟩ : String)] false [] .failure [pendingEx] []
      (by decide) (fun kv hkv => absurd hkv (List.not_mem_nil kv))
      (fun kv hkv => absurd hkv (List.not_mem_nil kv))).1,
    (summary_length_within_maxChars_plus_ellipsis summaryCfgEx (fun _ => .failure) 0 "bash" []
      [.text (⟨List.replicate 55 'y'⟩ : String)] false [] .failure [pendingEx] []
      (by decide) (fun kv hkv => absurd hkv (List.not_mem_nil kv))
      (fun kv hkv => absurd hkv (List.not_mem_nil kv))).2⟩

/-- C7: if the first call took the LLM path (long content, cache miss,
non-empty completion) with caching enabled, then a second call with the
identical `(toolName, input, content)` within the cache TTL returns the very
same summary string with `cached = true`, leaving the cache unchanged. -/
theorem summarize_idempotent_within_ttl (config : SummaryConfig)
    (llm2 : String → LLMOutcome) (now1 now2 : Int) (toolName : String)
    (input : ToolInput) (content : List ContentBlock) (isError1 isError2 : Bool)
    (cache : SummaryCache) (raw : String)
    (hen : config.cache.enabled = true)
    (hlen1 : config.maxChars < ((extractTextContent content).length : Int))
    (hlen2 : config.minContentForSummarization < ((extractTextContent content).length : Int))
    (hraw : jsTrim raw ≠ "")
    (hmiss : ∀ kv ∈ cache, kv.1 ≠
      generateCacheKey toolName input (hashContent (extractTextContent content)))
    (httl : ¬(config.cache.ttlMs > 0 ∧ now2 - now1 > config.cache.ttlMs)) :
    ∃ (s : String) (cache1 : SummaryCache),
      summarize config (fun _ => .success raw) now1 toolName input content isError1 cache =
        (.ok s true (some false), cache1) ∧
      summarize config llm2 now2 toolName input content isError2 cache1 =
        (.ok s true (some true), cache1) := by
  have hempty : ∀ (s : String), s.length = 0 → s = "" := by
    intro s h0
    rcases s with ⟨data⟩
    simp [String.length] at h0
    subst h0
    rfl
  have hlenne : ¬((jsTrim raw).length = 0) := fun h0 => hraw (hempty _ h0)
  have hfind1 : cache.find? (fun p => p.1 ==
      generateCacheKey toolName input (hashContent (extractTextContent content))) = none :=
    List.find?_eq_none.mpr (fun kv hkv => by simpa using hmiss kv hkv)
  have hchk1 : checkCache
      (generateCacheKey toolName input (hashContent (extractTextContent content)))
      config.cache now1 cache = (none, cache) := by
    unfold checkCache
    rw [if_neg (by simp [hen]), hfind1]
  refine ⟨strSlice (jsTrim raw) config.maxChars.toNat,
    storeInCache (generateCacheKey toolName input (hashContent (extractTextContent content)))
      (hashContent (extractTextContent content))
      (strSlice (jsTrim raw) config.maxChars.toNat) config.cache now1 cache, ?_, ?_⟩
  · unfold summarize
    dsimp only
    rw [if_neg (not_le.mpr hlen1), if_neg (not_le.mpr hlen2), hchk1]
    dsimp only
    rw [if_neg hlenne]
  · have hfind2 : (storeInCache
        (generateCacheKey toolName input (hashContent (extractTextContent content)))
        (hashContent (extractTextContent content))
        (strSlice (jsTrim raw) config.maxChars.toNat) config.cache now1 cache).find?
          (fun p => p.1 ==
            generateCacheKey toolName input (hashContent (extractTextContent content))) =
        some (generateCacheKey toolName input (hashContent (extractTextContent content)),
          { summary := strSlice (jsTrim raw) config.maxChars.toNat, createdAt := now1,
            contentHash := hashContent (extractTextContent content) }) :=
      find?_storeInCache_self _ _ _ _ _ _ hen hmiss
    have hchk2 : checkCache
        (generateCacheKey toolName input (hashContent (extractTextContent content)))
        config.cache now2
        (storeInCache
          (generateCacheKey toolName input (hashContent (extractTextContent content)))
          (hashContent (extractTextContent content))
          (strSlice (jsTrim raw) config.maxChars.toNat) config.cache now1 cache) =
        (some (strSlice (jsTrim raw) config.maxChars.toNat, false),
          storeInCache
            (generateCacheKey toolName input (hashContent (extractTextContent content)))
            (hashContent (extractTextContent content))
            (strSlice (jsTrim raw) config.maxChars.toNat) config.cache now1 cache) := by
      unfold checkCache
      rw [if_neg (by simp [hen]), hfind2]
      dsimp only
      rw [if_neg httl]
    unfold summarize
    dsimp only
    rw [if_neg (not_le.mpr hlen1), if_neg (not_le.mpr hlen2), hchk2]

/-- Witness for C7: a concrete long content summarized twice within the
TTL. -/
theorem summarize_idempotent_within_ttl_witness :
    summaryCfgEx.cache.enabled = true ∧
    summaryCfgEx.maxChars < ((extractTextContent [.text longTextEx]).length : Int) ∧
    summaryCfgEx.minContentForSummarization <
      ((extractTextContent [.text longTextEx]).length : Int) ∧
    jsTrim "A concise summary." ≠ "" ∧
    (∀ kv ∈ ([] : SummaryCache), kv.1 ≠
      generateCacheKey "bash" [] (hashContent (extractTextContent [.text longTextEx]))) ∧
    ¬(summaryCfgEx.cache.ttlMs > 0 ∧ (500 : Int) - 0 > summaryCfgEx.cache.ttlMs) ∧
    (∃ (s : String) (cache1 : SummaryCache),
      summarize summaryCfgEx (fun _ => .success "A concise summary.") 0 "bash" []
        [.text longTextEx] false [] = (.ok s true (some false), cache1) ∧
      summarize summaryCfgEx (fun _ => .failure) 500 "bash" []
        [.text longTextEx] false cache1 = (.ok s true (some true), cache1)) :=
  ⟨rfl, by decide, by decide, by decide, by decide, by decide,
    summarize_idempotent_within_ttl summaryCfgEx (fun _ => .failure) 0 500 "bash" []
      [.text longTextEx] false false [] "A concise summary." rfl (by decide) (by decide)
      (by decide) (by decide) (by decide)⟩

/-- C9: for every content list containing no text blocks, `summarize`
returns `ok` with the empty summary and `truncated = false`: text extraction
ignores non-text blocks, and the empty text satisfies the verbatim case
(for a non-negative `maxChars`, as every effective configuration has). -/
theorem summarize_empty_on_no_text_blocks (config : SummaryConfig)
    (llm : String → LLMOutcome) (now : Int) (toolName : String) (input : ToolInput)
    (content : List ContentBlock) (isError : Bool) (cache : SummaryCache)
    (hmc : 0 ≤ config.maxChars)
    (h : ∀ b ∈ content, b.isTextBlock = false) :
    summarize config llm now toolName input content isError cache =
      (.ok "" false none, cache) := by
  have hfilter : content.filter ContentBlock.isTextBlock = [] :=
    List.filter_eq_nil_iff.mpr (fun b hb => by simp [h b hb])
  have hext : extractTextContent content = "" := by
    rw [extractTextContent, hfilter]
    rfl
  simp [summarize, hext, hmc]

/-- Witness for C9 at a concrete image-only content list. -/
theorem summarize_empty_on_no_text_blocks_witness :
    (0 : Int) ≤ DEFAULT_SUMMARY_CONFIG.maxChars ∧
    (∀ b ∈ [ContentBlock.image], b.isTextBlock = false) ∧
    summarize DEFAULT_SUMMARY_CONFIG (fun _ => .failure) 0 "bash" []
      [ContentBlock.image] false [] = (.ok "" false none, []) :=
  ⟨by decide, by decide,
    summarize_empty_on_no_text_blocks DEFAULT_SUMMARY_CONFIG (fun _ => .failure) 0 "bash" []
      [ContentBlock.image] false [] (by decide) (by decide)⟩

/-- C1: `summarize` always returns the `ok` variant, whatever the LLM
backend does (throws, times out, or returns an empty or non-empty string),
and so does every resolution produced by the batch processor — the caller
never observes the error variant. -/
theorem summarize_never_errors (config : SummaryConfig) (llm : String → LLMOutcome)
    (now : Int) (toolName : String) (input : ToolInput) (content : List ContentBlock)
    (isError : Bool) (cache : SummaryCache) (outcome : BatchOutcome)
    (items : List PendingItem) (batchCache : SummaryCache) :
    (summarize config llm now toolName input content isError cache).1.isOk = true ∧
    ∀ r ∈ (processBatch config outcome now items batchCache).1, r.isOk = true := by
  constructor
  · unfold summarize
    dsimp only
    repeat' split
    all_goals rfl
  · intro r hr
    exact processBatch_fst_ok config outcome now items batchCache r hr

/-- Witness for C1: a concrete batch whose LLM call fails still resolves its
item with an `ok` truncation result. -/
theorem summarize_never_errors_witness :
    (SummarizationResult.ok (strSlice longTextEx 50 ++ "...") true none) ∈
      (processBatch summaryCfgEx .failure 0 [pendingEx] []).1 ∧
    SummarizationResult.isOk (.ok (strSlice longTextEx 50 ++ "...") true none) = true :=
  ⟨by decide,
    (summarize_never_errors summaryCfgEx (fun _ => .failure) 0 "bash" [] [] false []
      .failure [pendingEx] []).2 _ (by decide)⟩

/-- C5: in any event sequence without a compaction event, the session's
`compactionOccurred` latch stays unset, and the context handler injects
nothing (returns no replacement message list), whatever the messages,
services and retrievable entries are. -/
theorem no_injection_before_first_compaction (events : List HostEvent)
    (rt0 : RuntimeValue) (servicesOk : Bool) (retrieved : Option (List SearchResult))
    (messages : List Message)
    (hne : ∀ e ∈ events, e ≠ HostEvent.beforeCompact)
    (h0 : rt0.compactionOccurred = false) :
    handleContext (some (events.foldl stepRuntime rt0)) servicesOk retrieved messages =
      none := by
  have hlatch : ∀ (es : List HostEvent) (rt : RuntimeValue),
      (∀ e ∈ es, e ≠ HostEvent.beforeCompact) → rt.compactionOccurred = false →
      (es.foldl stepRuntime rt).compactionOccurred = false := by
    intro es
    induction es with
    | nil => intro rt _ h; exact h
    | cons e es ih =>
      intro rt hne h
      rw [List.foldl_cons]
      refine ih _ (fun e' he' => hne e' (List.mem_cons_of_mem _ he')) ?_
      cases e with
      | toolResult n => exact h
      | beforeCompact => exact absurd rfl (hne _ (List.mem_cons_self _ _))
      | contextEvent => exact h
  have hc := hlatch events rt0 hne h0
  simp [handleContext, hc]

/-- Witness for C5: a tool-result event and a context event, but no
compaction event. -/
theorem no_injection_before_first_compaction_witness :
    (∀ e ∈ [HostEvent.toolResult 3, HostEvent.contextEvent],
      e ≠ HostEvent.beforeCompact) ∧
    rtNoCompactEx.compactionOccurred = false ∧
    handleContext
      (some ([HostEvent.toolResult 3, HostEvent.contextEvent].foldl stepRuntime rtNoCompactEx))
      true (some [⟨entryEx, 1⟩]) [] = none :=
  ⟨by decide, rfl,
    no_injection_before_first_compaction [HostEvent.toolResult 3, HostEvent.contextEvent]
      rtNoCompactEx true (some [⟨entryEx, 1⟩]) [] (by decide) rfl⟩

/-- Any member of `searchResults` comes from a candidate row, carries the
score `1 / (1 + distance)` of that row, and passed the `minScore` filter. -/
theorem mem_searchResults (options : SearchOptions) (rows : List SearchRow)
    (r : SearchResult) (hr : r ∈ searchResults options rows) :
    ∃ row ∈ rows, r.entry = row.entry ∧ r.score = 1 / (1 + row.distance) ∧
      options.minScore ≤ r.score := by
  unfold searchResults at hr
  have hr' := List.mem_of_mem_take hr
  obtain ⟨row, hrow, hf⟩ := List.mem_filterMap.mp hr'
  refine ⟨row, hrow, ?_⟩
  dsimp only at hf
  split at hf
  · simp at hf
  · split at hf
    next hmin =>
      injection hf with hf
      subst hf
      exact ⟨rfl, rfl, hmin⟩
    next => simp at hf

/-- C2: assuming the backing vector search returns candidates with
non-negative distances in non-decreasing distance order, every result of
`search` scores at least `minScore`, each score is `1 / (1 + distance)` of
its candidate (hence lies in `(0, 1]`), and the returned sequence is
non-increasing in score. -/
theorem search_scores_bounded_and_sorted (options : SearchOptions) (rows : List SearchRow)
    (hnn : ∀ row ∈ rows, 0 ≤ row.distance)
    (hsorted : rows.Pairwise (fun a b => a.distance ≤ b.distance)) :
    (∀ r ∈ searchResults options rows, options.minScore ≤ r.score) ∧
    (∀ r ∈ searchResults options rows, ∃ row ∈ rows,
      r.entry = row.entry ∧ r.score = 1 / (1 + row.distance)) ∧
    (∀ r ∈ searchResults options rows, 0 < r.score ∧ r.score ≤ 1) ∧
    (searchResults options rows).Pairwise (fun a b => b.score ≤ a.score) := by
  refine ⟨?_, ?_, ?_, ?_⟩
  · intro r hr
    obtain ⟨row, hrow, _, _, hm⟩ := mem_searchResults options rows r hr
    exact hm
  · intro r hr
    obtain ⟨row, hrow, he, hs, _⟩ := mem_searchResults options rows r hr
    exact ⟨row, hrow, he, hs⟩
  · intro r hr
    obtain ⟨row, hrow, _, hs, _⟩ := mem_searchResults options rows r hr
    have hd := hnn row hrow
    rw [hs]
    constructor
    · exact one_div_pos.mpr (by linarith)
    · rw [div_le_one (by linarith)]
      linarith
  · apply List.Pairwise.sublist (List.take_sublist _ _)
    have h1 : rows.Pairwise (fun a b => a ∈ rows ∧ b ∈ rows ∧ a.distance ≤ b.distance) :=
      List.Pairwise.and_mem.mp hsorted
    refine List.Pairwise.filterMap _ ?_ h1
    intro a b hab c hc d hd
    obtain ⟨ha, hb, hdist⟩ := hab
    rw [Option.mem_def] at hc hd
    dsimp only at hc hd
    have hda := hnn a ha
    have hdb := hnn b hb
    split at hc
    · simp at hc
    · split at hc
      · injection hc with hc
        subst hc
        split at hd
        · simp at hd
        · split at hd
          · injection hd with hd
            subst hd
            exact one_div_le_one_div_of_le (by linarith) (by linarith)
          · simp at hd
      · simp at hc

/-- The search options used by the C2 witness. -/
def searchOptionsEx : SearchOptions :=
  { limit := 5, minScore := 0, sessionId := none, crossSession := false }

/-- The candidate rows used by the C2 witness: distances 0 and 1, in
non-decreasing order. -/
def searchRowsEx : List SearchRow :=
  [{ entry := entryEx, distance := 0 }, { entry := entryEx2, distance := 1 }]

/-- Witness for C2 at two concrete candidate rows. -/
theorem search_scores_bounded_and_sorted_witness :
    (∀ row ∈ searchRowsEx, 0 ≤ row.distance) ∧
    searchRowsEx.Pairwise (fun a b => a.distance ≤ b.distance) ∧
    ((∀ r ∈ searchResults searchOptionsEx searchRowsEx, searchOptionsEx.minScore ≤ r.score) ∧
     (∀ r ∈ searchResults searchOptionsEx searchRowsEx, ∃ row ∈ searchRowsEx,
       r.entry = row.entry ∧ r.score = 1 / (1 + row.distance)) ∧
     (∀ r ∈ searchResults searchOptionsEx searchRowsEx, 0 < r.score ∧ r.score ≤ 1) ∧
     (searchResults searchOptionsEx searchRowsEx).Pairwise (fun a b => b.score ≤ a.score)) :=
  ⟨by simp [searchRowsEx],
   by simp [searchRowsEx, List.pairwise_cons],
   search_scores_bounded_and_sorted searchOptionsEx searchRowsEx
     (by simp [searchRowsEx])
     (by simp [searchRowsEx, List.pairwise_cons])⟩

/-- C4: the predicate built by `makeToolFilterPredicate` rejects any tool
name whose trimmed-lowercased form matches an exclude pattern, even if it
also matches an include pattern; with no exclude match and an empty include
set it accepts; otherwise it accepts exactly the include matches. (The
include patterns are assumed individually non-empty after normalization, so
that none of them is silently dropped by the compiler.) -/
theorem toolFilter_exclude_precedence (toolName : String)
    (includePatterns excludePatterns : List String) (minCC maxCC : Int)
    (hinc : ∀ p ∈ includePatterns, jsToLower (jsTrim p) ≠ "") :
    (matchesAny (jsToLower (jsTrim toolName)) (compilePatterns (some excludePatterns)) = true →
      makeToolFilterPredicate ⟨some includePatterns, some excludePatterns, minCC, maxCC⟩
        toolName = false) ∧
    (matchesAny (jsToLower (jsTrim toolName)) (compilePatterns (some excludePatterns)) = false →
      includePatterns = [] →
      makeToolFilterPredicate ⟨some includePatterns, some excludePatterns, minCC, maxCC⟩
        toolName = true) ∧
    (matchesAny (jsToLower (jsTrim toolName)) (compilePatterns (some excludePatterns)) = false →
      includePatterns ≠ [] →
      makeToolFilterPredicate ⟨some includePatterns, some excludePatterns, minCC, maxCC⟩
        toolName =
        matchesAny (jsToLower (jsTrim toolName)) (compilePatterns (some includePatterns))) := by
  have hnorm : normalizePatterns (some includePatterns) =
      includePatterns.map (fun p => jsToLower (jsTrim p)) := by
    unfold normalizePatterns
    apply List.filter_eq_self.mpr
    intro a ha
    obtain ⟨p, hp, rfl⟩ := List.mem_map.mp ha
    simpa using hinc p hp
  have hlen : (compilePatterns (some includePatterns)).length = includePatterns.length := by
    simp [compilePatterns, hnorm]
  refine ⟨?_, ?_, ?_⟩
  · intro hex
    simp [makeToolFilterPredicate, hex]
  · intro hex hempty
    subst hempty
    have hcempty : compilePatterns (some ([] : List String)) = [] := rfl
    simp [makeToolFilterPredicate, hex, hcempty]
  · intro hex hne
    have hnz : ¬(compilePatterns (some includePatterns)).length = 0 := by
      rw [hlen]
      exact fun h2 => hne (List.length_eq_zero.mp h2)
    simp [makeToolFilterPredicate, hex, hnz]

/-- Characterization of a successful context injection: the handler returned
a replacement list only if a runtime and retrieval results exist, a latest
user message was found, the dedup filter left something, and the replacement
is exactly the map that extends that user message with the block formatted
from the dedup-filtered results. -/
theorem handleContext_eq_some (runtime : Option RuntimeValue) (servicesOk : Bool)
    (retrieved : Option (List SearchResult)) (messages : List Message) (ms : List Message)
    (h : handleContext runtime servicesOk retrieved messages = some ms) :
    ∃ (rt : RuntimeValue) (results : List SearchResult) (lastUserMessage : Message),
      runtime = some rt ∧ retrieved = some results ∧
      messages.reverse.find? (fun m => m.role == "user") = some lastUserMessage ∧
      (results.filter (fun r =>
        !(collectExistingToolCallIds messages).contains r.entry.toolCallId)) ≠ [] ∧
      ms = messages.map (fun m =>
        if m.role == "user" && m.objId == lastUserMessage.objId then
          appendContextNote m ("\n\n" ++ formatResultsForContext
            (results.filter (fun r =>
              !(collectExistingToolCallIds messages).contains r.entry.toolCallId))
            rt.config.retrieval.injectFullContent rt.config.retrieval.maxFullContentChars)
        else m) := by
  cases runtime with
  | none => simp [handleContext] at h
  | some rt =>
    simp only [handleContext] at h
    split at h
    next => simp at h
    next =>
      split at h
      next => simp at h
      next =>
        split at h
        next => simp at h
        next =>
          split at h
          next => simp at h
          next lastUserMessage hfind =>
            split at h
            next => simp at h
            next =>
              split at h
              next => simp at h
              next =>
                cases retrieved with
                | none => simp at h
                | some results =>
                  dsimp only at h
                  split at h
                  next => simp at h
                  next =>
                    split at h
                    next => simp at h
                    next hflen =>
                      refine ⟨rt, results, lastUserMessage, rfl, rfl, hfind, ?_, ?_⟩
                      · intro hnil
                        exact hflen (by rw [hnil]; rfl)
                      · injection h with h
                        exact h.symm

/-- C6: every retrieved result whose `toolCallId` already appears as a
visible tool-result message is excluded from the dedup-filtered list the
injected block is built from, and when every retrieved result is excluded
this way the handler injects nothing. -/
theorem dedup_excludes_visible_toolCallIds (runtime : Option RuntimeValue)
    (servicesOk : Bool) (messages : List Message) (results : List SearchResult) :
    ((∀ r ∈ results,
        (collectExistingToolCallIds messages).contains r.entry.toolCallId = true) →
      handleContext runtime servicesOk (some results) messages = none) ∧
    (∀ ms, handleContext runtime servicesOk (some results) messages = some ms →
      ∃ (rt : RuntimeValue) (lastUserMessage : Message),
        runtime = some rt ∧
        (∀ r ∈ results.filter (fun r =>
            !(collectExistingToolCallIds messages).contains r.entry.toolCallId),
          (collectExistingToolCallIds messages).contains r.entry.toolCallId = false) ∧
        ms = messages.map (fun m =>
          if m.role == "user" && m.objId == lastUserMessage.objId then
            appendContextNote m ("\n\n" ++ formatResultsForContext
              (results.filter (fun r =>
                !(collectExistingToolCallIds messages).contains r.entry.toolCallId))
              rt.config.retrieval.injectFullContent rt.config.retrieval.maxFullContentChars)
          else m)) := by
  constructor
  · intro hall
    cases hc : handleContext runtime servicesOk (some results) messages with
    | none => rfl
    | some ms =>
      obtain ⟨rt, results', lum, _, hres, _, hne, _⟩ :=
        handleContext_eq_some runtime servicesOk (some results) messages ms hc
      injection hres with hres
      subst hres
      refine absurd ?_ hne
      refine List.filter_eq_nil_iff.mpr ?_
      intro r hr
      simpa using hall r hr
  · intro ms h
    obtain ⟨rt, results', lum, hrt, hres, hfind, hne, hms⟩ :=
      handleContext_eq_some runtime servicesOk (some results) messages ms h
    injection hres with hres
    subst hres
    refine ⟨rt, lum, hrt, ?_, hms⟩
    intro r hr
    have := List.of_mem_filter hr
    simpa using this

/-- Witness for C6: the only retrieved result's tool call id is already
visible in the context, so the handler injects nothing. -/
theorem dedup_excludes_visible_toolCallIds_witness :
    (∀ r ∈ [({ entry := entryEx, score := 1 } : SearchResult)],
      (collectExistingToolCallIds messagesEx).contains r.entry.toolCallId = true) ∧
    handleContext (some rtCompactedEx) true
      (some [{ entry := entryEx, score := 1 }]) messagesEx = none :=
  ⟨by decide,
    (dedup_excludes_visible_toolCallIds (some rtCompactedEx) true messagesEx
      [{ entry := entryEx, score := 1 }]).1 (by decide)⟩

/-- C8: when the context handler returns a replacement list, it has the same
length as the original, the entry at the (unique) index of the latest user
message is that message extended with the context note, and every other
entry is the original message unchanged (object identities assumed distinct,
as they are for a JS array of distinct message objects; in this pure model
the original list is trivially unmutated). -/
theorem injection_replaces_only_latest_user (runtime : Option RuntimeValue)
    (servicesOk : Bool) (retrieved : Option (List SearchResult))
    (messages ms : List Message)
    (hids : ∀ (i : Nat), i < messages.length → ∀ (j : Nat), j < messages.length →
      ∀ (hi : i < messages.length) (hj : j < messages.length),
      (messages.get ⟨i, hi⟩).objId = (messages.get ⟨j, hj⟩).objId → i = j)
    (h : handleContext runtime servicesOk retrieved messages = some ms) :
    ∃ (k : Nat) (hk : k < messages.length) (lastUserMessage : Message) (note : String),
      messages.reverse.find? (fun m => m.role == "user") = some lastUserMessage ∧
      messages.get ⟨k, hk⟩ = lastUserMessage ∧
      ms.length = messages.length ∧
      ms[k]? = some (appendContextNote lastUserMessage note) ∧
      ∀ (j : Nat), j < messages.length → j ≠ k → ms[j]? = messages[j]? := by
  obtain ⟨rt, results, lum, hrt, hres, hfind, hne, hms⟩ :=
    handleContext_eq_some runtime servicesOk retrieved messages ms h
  have hmem : lum ∈ messages := List.mem_reverse.mp (List.mem_of_find?_eq_some hfind)
  have hrole : (lum.role == "user") = true := by
    have h2 := List.find?_some hfind
    simpa using h2
  obtain ⟨⟨k, hk⟩, hget⟩ := List.mem_iff_get.mp hmem
  have hget' : messages[k] = lum := hget
  refine ⟨k, hk, lum,
    "\n\n" ++ formatResultsForContext
      (results.filter (fun r =>
        !(collectExistingToolCallIds messages).contains r.entry.toolCallId))
      rt.config.retrieval.injectFullContent rt.config.retrieval.maxFullContentChars,
    hfind, hget, ?_, ?_, ?_⟩
  · rw [hms, List.length_map]
  · rw [hms, List.getElem?_map, List.getElem?_eq_getElem hk, Option.map_some', hget',
      if_pos (by simp [hrole])]
  · intro j hj hjk
    rw [hms, List.getElem?_map, List.getElem?_eq_getElem hj, Option.map_some']
    congr 1
    have hcond : ¬(messages[j].role == "user" && messages[j].objId == lum.objId) = true := by
      intro hc
      rw [Bool.and_eq_true] at hc
      have hobj : messages[j].objId = lum.objId := by simpa using hc.2
      rw [← hget'] at hobj
      exact hjk (hids j hj k hk hj hk hobj)
    rw [if_neg hcond]

/-- Witness for C8 at the concrete injection scenario. -/
theorem injection_replaces_only_latest_user_witness :
    (∀ (i : Nat), i < messagesEx.length → ∀ (j : Nat), j < messagesEx.length →
      ∀ (hi : i < messagesEx.length) (hj : j < messagesEx.length),
      (messagesEx.get ⟨i, hi⟩).objId = (messagesEx.get ⟨j, hj⟩).objId → i = j) ∧
    handleContext (some rtCompactedEx) true
      (some [{ entry := entryEx2, score := 1 }]) messagesEx = some msEx ∧
    (∃ (k : Nat) (hk : k < messagesEx.length) (lastUserMessage : Message) (note : String),
      messagesEx.reverse.find? (fun m => m.role == "user") = some lastUserMessage ∧
      messagesEx.get ⟨k, hk⟩ = lastUserMessage ∧
      msEx.length = messagesEx.length ∧
      msEx[k]? = some (appendContextNote lastUserMessage note) ∧
      ∀ (j : Nat), j < messagesEx.length → j ≠ k → msEx[j]? = messagesEx[j]?) :=
  ⟨by decide, by rfl,
    injection_replaces_only_latest_user (some rtCompactedEx) true
      (some [{ entry := entryEx2, score := 1 }]) messagesEx msEx (by decide) (by rfl)⟩

/-- Witness for C4 at the default-style patterns: `" Read "` is excluded by
`read` even though it matches the include pattern list. -/
theorem toolFilter_exclude_precedence_witness :
    (∀ p ∈ ["read", "grep"], jsToLower (jsTrim p) ≠ "") ∧
    matchesAny (jsToLower (jsTrim " Read ")) (compilePatterns (some ["read"])) = true ∧
    makeToolFilterPredicate ⟨some ["read", "grep"], some ["read"], 0, 0⟩ " Read " = false :=
  ⟨by decide, by decide,
    (toolFilter_exclude_precedence " Read " ["read", "grep"] ["read"] 0 0 (by decide)).1
      (by decide)⟩

end OpenClaw
